import Mathlib

/-!
Verification of the sval streaming protocol (producer/consumer value
streaming with a fixed-depth validation stack and an owned snapshot
builder).

The crate's `stream`, `value` and `error` modules are not part of the
analysed sources (only `lib.rs` with its documentation examples and the
`benches/owned.rs` harness are); where a definition below embeds one of
those missing modules it is modelled from the specification and marked as
such in its doc comment.
-/

namespace Sval

/-- Modelled from the spec: the error taxonomy of the missing `error` /
`stream` modules (section 7 of the design): `InvalidState`,
`DepthExceeded`, `UnterminatedStructure`, `Unsupported`, and a custom
message variant. -/
inductive Err where
  | InvalidState
  | DepthExceeded
  | UnterminatedStructure
  | Unsupported
  | Custom (msg : String)
  deriving DecidableEq, Repr

/-- Modelled from the spec: one consumer-facing call of the missing
`stream::Stream` interface.  Primitive calls carry their payload;
`seq_begin`/`map_begin` carry the optional size hint; `seq_elem`,
`map_key` and `map_value` are the announcement calls (the spec's
`map_key()`/`map_key_begin()` reach the consumer as the same
announcement, likewise for values). -/
inductive Call where
  | u64 (v : Nat)
  | i64 (v : Int)
  | bool (b : Bool)
  | char (c : Char)
  | str (s : String)
  | unit
  | seq_begin (hint : Option Nat)
  | seq_elem
  | seq_end
  | map_begin (hint : Option Nat)
  | map_key
  | map_value
  | map_end
  deriving DecidableEq, Repr

/-- Whether a call is one of the primitive (leaf) calls. -/
def Call.isPrimitive : Call → Bool
  | .u64 _ => true
  | .i64 _ => true
  | .bool _ => true
  | .char _ => true
  | .str _ => true
  | .unit => true
  | _ => false

/-- Modelled from the spec: one open frame of the missing
`stream::Stack`: a sequence, or a map awaiting its next key or its next
value. -/
inductive Frame where
  | seq
  | mapAwaitingKey
  | mapAwaitingValue
  deriving DecidableEq, Repr

/-- Modelled from the spec: the fixed maximum nesting depth of the
missing `stream::Stack` ("a small constant, e.g. 16-32"). -/
def MAX_DEPTH : Nat := 16

/-- The nesting stack: a list of open frames, head is the top. -/
abbrev Stack := List Frame

/-- Modelled from the spec: the transition check of the missing
`stream::Stack` (the table of section 4.3).  `seq_begin`/`map_begin`
push a frame unless the depth bound is hit; announcements and `end`s
require the matching top frame; primitive calls are structural no-ops. -/
def check : Call → Stack → Except Err Stack
  | .seq_begin _, st =>
      if st.length < MAX_DEPTH then .ok (.seq :: st) else .error .DepthExceeded
  | .seq_elem, .seq :: st => .ok (.seq :: st)
  | .seq_elem, _ => .error .InvalidState
  | .seq_end, .seq :: st => .ok st
  | .seq_end, _ => .error .InvalidState
  | .map_begin _, st =>
      if st.length < MAX_DEPTH then .ok (.mapAwaitingKey :: st) else .error .DepthExceeded
  | .map_key, .mapAwaitingKey :: st => .ok (.mapAwaitingValue :: st)
  | .map_key, _ => .error .InvalidState
  | .map_value, .mapAwaitingValue :: st => .ok (.mapAwaitingKey :: st)
  | .map_value, _ => .error .InvalidState
  | .map_end, .mapAwaitingKey :: st => .ok st
  | .map_end, _ => .error .InvalidState
  | _, st => .ok st

/-- Modelled from the spec: the `end()` check of the missing
`stream::Stack`: succeeds exactly when every begun structure has been
ended. -/
def endCheck : Stack → Except Err Unit
  | [] => .ok ()
  | _ :: _ => .error .UnterminatedStructure

/-- An abstract consumer (the object-safe `Stream` implementor seen by
the protocol driver): a state type together with a handler for each
forwarded call and a final-completion hook. -/
structure Consumer (σ : Type) where
  onCall : Call → σ → Except Err σ
  onEnd : σ → Except Err σ

/-- Modelled from the spec: one step of the protocol driver (the missing
`value::collect::Default` wrapper): the call first passes the Stack's
transition check; only on success is it forwarded, verbatim, to the
wrapped consumer. -/
def step {σ : Type} (c : Consumer σ) (p : Stack × σ) (call : Call) :
    Except Err (Stack × σ) :=
  match check call p.1 with
  | .error e => .error e
  | .ok st' =>
      match c.onCall call p.2 with
      | .error e => .error e
      | .ok s' => .ok (st', s')

/-- The driver run over a list of producer-issued calls; stops at the
first error. -/
def runDriver {σ : Type} (c : Consumer σ) : Stack × σ → List Call → Except Err (Stack × σ)
  | p, [] => .ok p
  | p, call :: rest =>
      match step c p call with
      | .error e => .error e
      | .ok p' => runDriver c p' rest

/-- The Stack check alone, folded over a call list. -/
def runStack : Stack → List Call → Except Err Stack
  | st, [] => .ok st
  | st, call :: rest =>
      match check call st with
      | .error e => .error e
      | .ok st' => runStack st' rest

/-- The wrapped consumer alone, folded over a call list. -/
def runConsumer {σ : Type} (c : Consumer σ) : σ → List Call → Except Err σ
  | s, [] => .ok s
  | s, call :: rest =>
      match c.onCall call s with
      | .error e => .error e
      | .ok s' => runConsumer c s' rest

/-- The streaming operation from an intermediate driver state: run the
remaining calls, then verify the Stack is empty and fire the consumer's
completion hook. -/
def streamFrom {σ : Type} (c : Consumer σ) (p : Stack × σ) (calls : List Call) :
    Except Err σ :=
  match runDriver c p calls with
  | .error e => .error e
  | .ok p' =>
      match endCheck p'.1 with
      | .error e => .error e
      | .ok _ => c.onEnd p'.2

/-- The top-level entry point `sval::stream` (lib.rs line 379): wraps the
consumer in the protocol driver with a fresh, empty Stack and drives the
producer's calls through it. -/
def streamTop {σ : Type} (c : Consumer σ) (s₀ : σ) (calls : List Call) : Except Err σ :=
  streamFrom c ([], s₀) calls

/-- A consumer that accepts every call and records nothing. -/
def nullConsumer : Consumer Unit where
  onCall := fun _ _ => .ok ()
  onEnd := fun _ => .ok ()

/-- A consumer that records the calls forwarded to it, in order. -/
def traceConsumer : Consumer (List Call) where
  onCall := fun call s => .ok (s ++ [call])
  onEnd := fun s => .ok s

mutual
/-- Modelled from the spec: the missing `value::OwnedValue` type: a
closed algebraic tree with a leaf variant per primitive plus ordered
sequences and ordered key/value pair maps, fully self-contained. -/
inductive OwnedValue where
  | Uint (v : Nat)
  | Sint (v : Int)
  | Boolean (b : Bool)
  | Character (c : Char)
  | Str (s : String)
  | Unit
  | Seq (items : OwnedList)
  | Map (entries : OwnedPairs)
  deriving DecidableEq, Repr
/-- An ordered sequence of owned values. -/
inductive OwnedList where
  | nil
  | cons (v : OwnedValue) (rest : OwnedList)
  deriving DecidableEq, Repr
/-- An ordered sequence of owned key/value pairs. -/
inductive OwnedPairs where
  | nil
  | cons (k v : OwnedValue) (rest : OwnedPairs)
  deriving DecidableEq, Repr
end

mutual
/-- A well-behaved producer, abstractly: the value shape it describes
(section 4.2 of the design), together with the size hint it chooses to
pass at each `seq_begin`/`map_begin`. -/
inductive Tree where
  | u64 (v : Nat)
  | i64 (v : Int)
  | bool (b : Bool)
  | char (c : Char)
  | str (s : String)
  | unit
  | seq (hint : Option Nat) (items : TreeList)
  | map (hint : Option Nat) (entries : TreePairs)
  deriving DecidableEq, Repr
/-- Elements of a sequence-shaped producer. -/
inductive TreeList where
  | nil
  | cons (t : Tree) (ts : TreeList)
  deriving DecidableEq, Repr
/-- Key/value pairs of a map-shaped producer. -/
inductive TreePairs where
  | nil
  | cons (k v : Tree) (rest : TreePairs)
  deriving DecidableEq, Repr
end

mutual
/-- The calls a producer for this value issues (section 4.2): one
primitive call for a leaf; `seq_begin`, then `seq_elem` plus the
element's calls for each element, then `seq_end`; `map_begin`, then
`map_key` plus the key's calls and `map_value` plus the value's calls
for each pair, then `map_end`. -/
def treeCalls : Tree → List Call
  | .u64 v => [.u64 v]
  | .i64 v => [.i64 v]
  | .bool b => [.bool b]
  | .char c => [.char c]
  | .str s => [.str s]
  | .unit => [.unit]
  | .seq h ts => .seq_begin h :: (treeListCalls ts ++ [.seq_end])
  | .map h ps => .map_begin h :: (treePairsCalls ps ++ [.map_end])
/-- Calls for the elements of a sequence. -/
def treeListCalls : TreeList → List Call
  | .nil => []
  | .cons t ts => .seq_elem :: (treeCalls t ++ treeListCalls ts)
/-- Calls for the pairs of a map. -/
def treePairsCalls : TreePairs → List Call
  | .nil => []
  | .cons k v rest =>
      .map_key :: (treeCalls k ++ .map_value :: (treeCalls v ++ treePairsCalls rest))
end

mutual
/-- Nesting depth of the value a producer describes: leaves are depth 0,
each open sequence or map adds one frame. -/
def heightT : Tree → Nat
  | .u64 _ => 0
  | .i64 _ => 0
  | .bool _ => 0
  | .char _ => 0
  | .str _ => 0
  | .unit => 0
  | .seq _ ts => heightTList ts + 1
  | .map _ ps => heightTPairs ps + 1
/-- Largest depth among a sequence's elements. -/
def heightTList : TreeList → Nat
  | .nil => 0
  | .cons t ts => max (heightT t) (heightTList ts)
/-- Largest depth among a map's keys and values. -/
def heightTPairs : TreePairs → Nat
  | .nil => 0
  | .cons k v rest => max (max (heightT k) (heightT v)) (heightTPairs rest)
end

mutual
/-- The owned snapshot of the value a producer describes: the same tree
with the size hints forgotten. -/
def owned : Tree → OwnedValue
  | .u64 v => .Uint v
  | .i64 v => .Sint v
  | .bool b => .Boolean b
  | .char c => .Character c
  | .str s => .Str s
  | .unit => .Unit
  | .seq _ ts => .Seq (ownedListOf ts)
  | .map _ ps => .Map (ownedPairsOf ps)
/-- Owned snapshots of a sequence's elements. -/
def ownedListOf : TreeList → OwnedList
  | .nil => .nil
  | .cons t ts => .cons (owned t) (ownedListOf ts)
/-- Owned snapshots of a map's pairs. -/
def ownedPairsOf : TreePairs → OwnedPairs
  | .nil => .nil
  | .cons k v rest => .cons (owned k) (owned v) (ownedPairsOf rest)
end

/-- Number of elements in an owned sequence. -/
def OwnedList.length : OwnedList → Nat
  | .nil => 0
  | .cons _ rest => rest.length + 1

/-- Number of pairs in an owned map. -/
def OwnedPairs.length : OwnedPairs → Nat
  | .nil => 0
  | .cons _ _ rest => rest.length + 1

mutual
/-- An `OwnedValue` itself implements the producer interface: it streams
its own structure, passing its exact sizes as hints. -/
def OwnedValue.toTree : OwnedValue → Tree
  | .Uint v => .u64 v
  | .Sint v => .i64 v
  | .Boolean b => .bool b
  | .Character c => .char c
  | .Str s => .str s
  | .Unit => .unit
  | .Seq items => .seq (some items.length) (OwnedList.toTreeList items)
  | .Map entries => .map (some entries.length) (OwnedPairs.toTreePairs entries)
/-- Producer elements of an owned sequence. -/
def OwnedList.toTreeList : OwnedList → TreeList
  | .nil => .nil
  | .cons v rest => .cons v.toTree (OwnedList.toTreeList rest)
/-- Producer pairs of an owned map. -/
def OwnedPairs.toTreePairs : OwnedPairs → TreePairs
  | .nil => .nil
  | .cons k v rest => .cons k.toTree v.toTree (OwnedPairs.toTreePairs rest)
end

/-- The call sequence an `OwnedValue` issues when streamed again as a
producer. -/
def OwnedValue.stream (v : OwnedValue) : List Call := treeCalls v.toTree

/-- Append one owned value at the end of a sequence buffer. -/
def OwnedList.snoc : OwnedList → OwnedValue → OwnedList
  | .nil, v => .cons v .nil
  | .cons x rest, v => .cons x (rest.snoc v)

/-- Concatenation of owned sequence buffers. -/
def OwnedList.append : OwnedList → OwnedList → OwnedList
  | .nil, l => l
  | .cons x rest, l => .cons x (rest.append l)

/-- Append one completed pair at the end of a map buffer. -/
def OwnedPairs.snoc : OwnedPairs → OwnedValue → OwnedValue → OwnedPairs
  | .nil, k, v => .cons k v .nil
  | .cons a b rest, k, v => .cons a b (rest.snoc k v)

/-- Concatenation of owned map buffers. -/
def OwnedPairs.append : OwnedPairs → OwnedPairs → OwnedPairs
  | .nil, l => l
  | .cons a b rest, l => .cons a b (rest.append l)

/-- Modelled from the spec: one in-progress composite buffer of the
missing owned snapshot builder: a sequence being collected, or a map
being collected together with a key that still awaits its value. -/
inductive Part where
  | seq (items : OwnedList)
  | map (entries : OwnedPairs) (pending : Option OwnedValue)
  deriving DecidableEq, Repr

/-- Modelled from the spec: the state of the missing owned snapshot
builder: the stack of in-progress composites (head is the innermost) and
the completed root slot. -/
structure Builder where
  parts : List Part
  result : Option OwnedValue
  deriving DecidableEq, Repr

/-- The builder before any call has arrived. -/
def Builder.empty : Builder := ⟨[], none⟩

/-- Attach a completed owned value: append it to the innermost
in-progress composite (as an element, a pending key, or a pending key's
value), or make it the root result when no composite is open. -/
def Builder.insert (b : Builder) (v : OwnedValue) : Except Err Builder :=
  match b.parts with
  | [] =>
      match b.result with
      | none => .ok ⟨[], some v⟩
      | some _ => .error (.Custom "root value already complete")
  | .seq items :: rest => .ok ⟨.seq (items.snoc v) :: rest, b.result⟩
  | .map entries none :: rest => .ok ⟨.map entries (some v) :: rest, b.result⟩
  | .map entries (some k) :: rest => .ok ⟨.map (entries.snoc k v) none :: rest, b.result⟩

/-- Modelled from the spec: the owned snapshot builder's handler for one
streamed call (section 4.5): primitives become leaves attached at the
current position, begins push an empty composite, ends pop and attach
the completed composite, announcements need no bookkeeping of their
own. -/
def builderOnCall : Call → Builder → Except Err Builder
  | .u64 v, b => b.insert (.Uint v)
  | .i64 v, b => b.insert (.Sint v)
  | .bool v, b => b.insert (.Boolean v)
  | .char v, b => b.insert (.Character v)
  | .str v, b => b.insert (.Str v)
  | .unit, b => b.insert .Unit
  | .seq_begin _, b => .ok ⟨.seq .nil :: b.parts, b.result⟩
  | .map_begin _, b => .ok ⟨.map .nil none :: b.parts, b.result⟩
  | .seq_elem, b => .ok b
  | .map_key, b => .ok b
  | .map_value, b => .ok b
  | .seq_end, b =>
      match b.parts with
      | .seq items :: rest => Builder.insert ⟨rest, b.result⟩ (.Seq items)
      | _ => .error (.Custom "seq_end without an open sequence buffer")
  | .map_end, b =>
      match b.parts with
      | .map entries none :: rest => Builder.insert ⟨rest, b.result⟩ (.Map entries)
      | _ => .error (.Custom "map_end without a completed map buffer")

/-- The owned snapshot builder as a consumer. -/
def builderConsumer : Consumer Builder where
  onCall := builderOnCall
  onEnd := fun b => .ok b

/-- Modelled from the spec: `OwnedValue::from_value` (the snapshot entry
point of section 6): drive the producer's calls through the protocol
driver wrapped around the owned snapshot builder and return the
completed root. -/
def OwnedValue.from_value (calls : List Call) : Except Err OwnedValue :=
  match streamTop builderConsumer Builder.empty calls with
  | .error e => .error e
  | .ok b =>
      match b.result with
      | some v => .ok v
      | none => .error (.Custom "producer described no value")

/-- Modelled from the spec: a concrete `Stream` implementor of the
missing `stream` module, as the set of methods it chooses to override
(`none` selects the trait's default body).  One optional method per
primitive kind, the formatted fallback, the structural methods and the
final `end` hook. -/
structure StreamImpl (σ : Type) where
  fmt : Option (String → σ → Except Err σ) := none
  u64 : Option (Nat → σ → Except Err σ) := none
  i64 : Option (Int → σ → Except Err σ) := none
  bool : Option (Bool → σ → Except Err σ) := none
  char : Option (Char → σ → Except Err σ) := none
  str : Option (String → σ → Except Err σ) := none
  unit : Option (σ → Except Err σ) := none
  seq_begin : Option (Option Nat → σ → Except Err σ) := none
  seq_elem : Option (σ → Except Err σ) := none
  seq_end : Option (σ → Except Err σ) := none
  map_begin : Option (Option Nat → σ → Except Err σ) := none
  map_key : Option (σ → Except Err σ) := none
  map_value : Option (σ → Except Err σ) := none
  map_end : Option (σ → Except Err σ) := none
  endHook : Option (σ → Except Err σ) := none

/-- The opaque displayable token a primitive hands to the formatted
fallback. -/
def render : Call → String
  | .u64 v => toString v
  | .i64 v => toString v
  | .bool b => toString b
  | .char c => toString c
  | .str s => s
  | .unit => "none"
  | _ => ""

/-- The formatted-fallback method: the override when present, otherwise
the trait default, which fails with a "not supported" error. -/
def fmtOf {σ : Type} (impl : StreamImpl σ) : String → σ → Except Err σ :=
  match impl.fmt with
  | some f => f
  | none => fun _ _ => .error .Unsupported

/-- Modelled from the spec: method dispatch of the missing `Stream`
trait (section 4.1): a primitive method's default forwards into the
formatted fallback with the displayable token; every structural method's
default is a no-op success. -/
def dispatch {σ : Type} (impl : StreamImpl σ) : Call → σ → Except Err σ
  | .u64 v, s =>
      match impl.u64 with
      | some f => f v s
      | none => fmtOf impl (render (.u64 v)) s
  | .i64 v, s =>
      match impl.i64 with
      | some f => f v s
      | none => fmtOf impl (render (.i64 v)) s
  | .bool b, s =>
      match impl.bool with
      | some f => f b s
      | none => fmtOf impl (render (.bool b)) s
  | .char c, s =>
      match impl.char with
      | some f => f c s
      | none => fmtOf impl (render (.char c)) s
  | .str v, s =>
      match impl.str with
      | some f => f v s
      | none => fmtOf impl (render (.str v)) s
  | .unit, s =>
      match impl.unit with
      | some f => f s
      | none => fmtOf impl (render .unit) s
  | .seq_begin h, s =>
      match impl.seq_begin with
      | some f => f h s
      | none => .ok s
  | .seq_elem, s =>
      match impl.seq_elem with
      | some f => f s
      | none => .ok s
  | .seq_end, s =>
      match impl.seq_end with
      | some f => f s
      | none => .ok s
  | .map_begin h, s =>
      match impl.map_begin with
      | some f => f h s
      | none => .ok s
  | .map_key, s =>
      match impl.map_key with
      | some f => f s
      | none => .ok s
  | .map_value, s =>
      match impl.map_value with
      | some f => f s
      | none => .ok s
  | .map_end, s =>
      match impl.map_end with
      | some f => f s
      | none => .ok s

/-- A `StreamImpl` as the consumer the driver wraps: forwarded calls go
through method dispatch, the completion hook defaults to no-op
success. -/
def StreamImpl.toConsumer {σ : Type} (impl : StreamImpl σ) : Consumer σ where
  onCall := dispatch impl
  onEnd := fun s =>
    match impl.endHook with
    | some f => f s
    | none => .ok s

/-- The `IsU64` consumer of lib.rs lines 192-203: it overrides the
unsigned-integer method (here recording every received argument, so the
calls can be counted) and defines the formatted fallback to fail; the
fallback body is left arbitrary so that independence from it is
provable. -/
def isU64Impl (f : String → List Nat → Except Err (List Nat)) : StreamImpl (List Nat) :=
  { u64 := some (fun v s => .ok (s ++ [v])), fmt := some f }

/-! ### Producer-facing convenience handle

Modelled from the spec: on the producer-facing handle (`value::Stream`),
`seq_elem(v)`, `map_key(k)` and `map_value(v)` are the combined
convenience forms; `map_key_begin()`/`map_value_begin()` only announce,
leaving the producer to stream the key or value itself (lib.rs lines
85-95, 112-121 and 137-149 show both styles). Each handle call expands
to the consumer calls it causes. -/

/-- Combined `seq_elem(v)`: announce an element, then stream `v`. -/
def seq_elem_calls (t : Tree) : List Call := .seq_elem :: treeCalls t

/-- Split `map_key_begin()`: only the key announcement. -/
def map_key_begin_calls : List Call := [.map_key]

/-- Combined `map_key(k)`: announce a key, then stream `k`. -/
def map_key_calls (t : Tree) : List Call := .map_key :: treeCalls t

/-- Split `map_value_begin()`: only the value announcement. -/
def map_value_begin_calls : List Call := [.map_value]

/-- Combined `map_value(v)`: announce a value, then stream `v`. -/
def map_value_calls (t : Tree) : List Call := .map_value :: treeCalls t

/-- One key/value entry of a map, streamed with a per-slot choice of
style: `true` picks the combined form, `false` the split form. -/
def entry_calls (ck cv : Bool) (k v : Tree) : List Call :=
  (if ck then map_key_calls k else map_key_begin_calls ++ treeCalls k) ++
    (if cv then map_value_calls v else map_value_begin_calls ++ treeCalls v)

/-- Erase the size hint of a begin call; other calls are untouched. -/
def hintErase : Call → Call
  | .seq_begin _ => .seq_begin none
  | .map_begin _ => .map_begin none
  | c => c

/-! ### Concrete producers used by the claims -/

/-- The producer of the concrete scenario: it streams `{1: {2: 42}}`
with size hint 1 on both maps (benches/owned.rs lines 36-52 modulo the
hints, which the spec's scenario fixes to 1). -/
def scenarioTree : Tree :=
  .map (some 1) (.cons (.u64 1) (.map (some 1) (.cons (.u64 2) (.u64 42) .nil)) .nil)

/-- The calls the scenario producer issues. -/
def scenario_calls : List Call := treeCalls scenarioTree

/-- The call sequence the claim says the consumer receives:
`map_begin(Some(1))`, `map_key(1)`, `map_begin(Some(1))` as the value,
`map_key(2)`, `map_value(42)`, `map_end`, `map_end` — with key and value
payloads arriving as the primitive call right after their announcement,
and, as written, no value announcement before the nested map. -/
def claimed_delivery : List Call :=
  [.map_begin (some 1), .map_key, .u64 1, .map_begin (some 1), .map_key, .u64 2,
   .map_value, .u64 42, .map_end, .map_end]

/-- The owned snapshot the scenario must produce:
`Map([(Uint(1), Map([(Uint(2), Uint(42))]))])`. -/
def scenarioOwned : OwnedValue :=
  .Map (.cons (.Uint 1) (.Map (.cons (.Uint 2) (.Uint 42) .nil)) .nil)

/-- A producer nesting sequences to exactly depth `n` around the
primitive 7. -/
def nestSeq : Nat → Tree
  | 0 => .u64 7
  | n + 1 => .seq none (.cons (nestSeq n) .nil)

/-! ### Basic facts about the driver folds -/

theorem runStack_append_ok {st st' : Stack} {cs₁ : List Call} (cs₂ : List Call)
    (h : runStack st cs₁ = .ok st') :
    runStack st (cs₁ ++ cs₂) = runStack st' cs₂ := by
  induction cs₁ generalizing st with
  | nil => simp [runStack] at h; subst h; rfl
  | cons c cs ih =>
      simp only [runStack, List.cons_append] at h ⊢
      cases hc : check c st with
      | error e => simp [hc] at h
      | ok st₁ => simp [hc] at h ⊢; exact ih h

theorem runStack_append_err {st : Stack} {cs₁ : List Call} {e : Err} (cs₂ : List Call)
    (h : runStack st cs₁ = .error e) :
    runStack st (cs₁ ++ cs₂) = .error e := by
  induction cs₁ generalizing st with
  | nil => simp [runStack] at h
  | cons c cs ih =>
      simp only [runStack, List.cons_append] at h ⊢
      cases hc : check c st with
      | error e' => simp [hc] at h ⊢; exact h
      | ok st₁ => simp [hc] at h ⊢; exact ih h

theorem runConsumer_append_ok {σ : Type} {c : Consumer σ} {s s' : σ} {cs₁ : List Call}
    (cs₂ : List Call) (h : runConsumer c s cs₁ = .ok s') :
    runConsumer c s (cs₁ ++ cs₂) = runConsumer c s' cs₂ := by
  induction cs₁ generalizing s with
  | nil => simp [runConsumer] at h; subst h; rfl
  | cons x cs ih =>
      simp only [runConsumer, List.cons_append] at h ⊢
      cases hc : c.onCall x s with
      | error e => simp [hc] at h
      | ok s₁ => simp [hc] at h ⊢; exact ih h

/-- When both the Stack check and the wrapped consumer accept a call
list, the driver accepts it too and ends in the pair of their final
states. -/
theorem runDriver_split {σ : Type} {c : Consumer σ} {st st' : Stack} {s s' : σ}
    {cs : List Call} (h₁ : runStack st cs = .ok st')
    (h₂ : runConsumer c s cs = .ok s') :
    runDriver c (st, s) cs = .ok (st', s') := by
  induction cs generalizing st s with
  | nil =>
      simp [runStack] at h₁
      simp [runConsumer] at h₂
      subst h₁; subst h₂; rfl
  | cons x cs ih =>
      simp only [runStack] at h₁
      simp only [runConsumer] at h₂
      simp only [runDriver, step]
      cases hc : check x st with
      | error e => simp [hc] at h₁
      | ok st₁ =>
          simp [hc] at h₁
          cases ho : c.onCall x s with
          | error e => simp [ho] at h₂
          | ok s₁ =>
              simp [ho] at h₂
              exact ih h₁ h₂

/-- Against a consumer that never fails, the driver fails exactly when
the Stack check fails, with the same error. -/
theorem runDriver_null (st : Stack) (cs : List Call) :
    runDriver nullConsumer (st, ()) cs =
      match runStack st cs with
      | .ok st' => .ok (st', ())
      | .error e => .error e := by
  induction cs generalizing st with
  | nil => rfl
  | cons x cs ih =>
      simp only [runDriver, runStack, step, nullConsumer]
      cases hc : check x st with
      | error e => rfl
      | ok st₁ => exact ih st₁

/-! ### The Stack accepts every well-behaved producer within the depth
bound, leaving itself unchanged -/

mutual
theorem runStack_tree (t : Tree) (st : Stack) (h : st.length + heightT t ≤ MAX_DEPTH) :
    runStack st (treeCalls t) = .ok st := by
  cases t with
  | u64 v => rfl
  | i64 v => rfl
  | bool b => rfl
  | char c => rfl
  | str s => rfl
  | unit => rfl
  | seq hint ts =>
      simp only [treeCalls, runStack]
      have hlt : st.length < MAX_DEPTH := by
        simp only [heightT] at h; omega
      rw [show check (.seq_begin hint) st = .ok (.seq :: st) by simp [check, hlt]]
      show runStack (.seq :: st) (treeListCalls ts ++ [.seq_end]) = .ok st
      rw [runStack_append_ok [.seq_end]
        (runStack_treeList ts st (by simp only [heightT] at h; omega))]
      rfl
  | map hint ps =>
      simp only [treeCalls, runStack]
      have hlt : st.length < MAX_DEPTH := by
        simp only [heightT] at h; omega
      rw [show check (.map_begin hint) st = .ok (.mapAwaitingKey :: st) by simp [check, hlt]]
      show runStack (.mapAwaitingKey :: st) (treePairsCalls ps ++ [.map_end]) = .ok st
      rw [runStack_append_ok [.map_end]
        (runStack_treePairs ps st (by simp only [heightT] at h; omega))]
      rfl

theorem runStack_treeList (ts : TreeList) (st : Stack)
    (h : st.length + 1 + heightTList ts ≤ MAX_DEPTH) :
    runStack (.seq :: st) (treeListCalls ts) = .ok (.seq :: st) := by
  cases ts with
  | nil => rfl
  | cons t ts =>
      simp only [treeListCalls, runStack]
      show runStack (.seq :: st) (treeCalls t ++ treeListCalls ts) = .ok (.seq :: st)
      rw [runStack_append_ok (treeListCalls ts)
        (runStack_tree t (.seq :: st) (by simp only [heightTList] at h; simp; omega))]
      exact runStack_treeList ts st (by simp only [heightTList] at h; omega)

theorem runStack_treePairs (ps : TreePairs) (st : Stack)
    (h : st.length + 1 + heightTPairs ps ≤ MAX_DEPTH) :
    runStack (.mapAwaitingKey :: st) (treePairsCalls ps) = .ok (.mapAwaitingKey :: st) := by
  cases ps with
  | nil => rfl
  | cons k v rest =>
      simp only [treePairsCalls, runStack]
      show runStack (.mapAwaitingValue :: st)
        (treeCalls k ++ .map_value :: (treeCalls v ++ treePairsCalls rest)) =
        .ok (.mapAwaitingKey :: st)
      rw [runStack_append_ok (.map_value :: (treeCalls v ++ treePairsCalls rest))
        (runStack_tree k (.mapAwaitingValue :: st)
          (by simp only [heightTPairs] at h; simp; omega))]
      show runStack (.mapAwaitingKey :: st) (treeCalls v ++ treePairsCalls rest) =
        .ok (.mapAwaitingKey :: st)
      rw [runStack_append_ok (treePairsCalls rest)
        (runStack_tree v (.mapAwaitingKey :: st)
          (by simp only [heightTPairs] at h; simp; omega))]
      exact runStack_treePairs rest st (by simp only [heightTPairs] at h; omega)
end

/-! ### The Stack rejects every producer that nests past the depth
bound, with `DepthExceeded` -/

mutual
theorem runStack_tree_deep (t : Tree) (st : Stack) (hlen : st.length ≤ MAX_DEPTH)
    (h : MAX_DEPTH < st.length + heightT t) :
    runStack st (treeCalls t) = .error .DepthExceeded := by
  cases t with
  | u64 v => exact absurd h (by simp [heightT]; omega)
  | i64 v => exact absurd h (by simp [heightT]; omega)
  | bool b => exact absurd h (by simp [heightT]; omega)
  | char c => exact absurd h (by simp [heightT]; omega)
  | str s => exact absurd h (by simp [heightT]; omega)
  | unit => exact absurd h (by simp [heightT]; omega)
  | seq hint ts =>
      by_cases hfull : st.length < MAX_DEPTH
      · simp only [treeCalls, runStack]
        rw [show check (.seq_begin hint) st = .ok (.seq :: st) by simp [check, hfull]]
        show runStack (.seq :: st) (treeListCalls ts ++ [.seq_end]) = .error .DepthExceeded
        exact runStack_append_err [.seq_end]
          (runStack_treeList_deep ts st (by omega) (by simp only [heightT] at h; omega))
      · simp only [treeCalls, runStack]
        rw [show check (.seq_begin hint) st = .error .DepthExceeded by simp [check, hfull]]
  | map hint ps =>
      by_cases hfull : st.length < MAX_DEPTH
      · simp only [treeCalls, runStack]
        rw [show check (.map_begin hint) st = .ok (.mapAwaitingKey :: st) by
          simp [check, hfull]]
        show runStack (.mapAwaitingKey :: st) (treePairsCalls ps ++ [.map_end]) =
          .error .DepthExceeded
        exact runStack_append_err [.map_end]
          (runStack_treePairs_deep ps st (by omega) (by simp only [heightT] at h; omega))
      · simp only [treeCalls, runStack]
        rw [show check (.map_begin hint) st = .error .DepthExceeded by simp [check, hfull]]

theorem runStack_treeList_deep (ts : TreeList) (st : Stack)
    (hlen : st.length + 1 ≤ MAX_DEPTH)
    (h : MAX_DEPTH < st.length + 1 + heightTList ts) :
    runStack (.seq :: st) (treeListCalls ts) = .error .DepthExceeded := by
  cases ts with
  | nil => exact absurd h (by simp [heightTList]; omega)
  | cons t ts =>
      simp only [treeListCalls, runStack]
      show runStack (.seq :: st) (treeCalls t ++ treeListCalls ts) = .error .DepthExceeded
      by_cases hd : MAX_DEPTH < st.length + 1 + heightT t
      · exact runStack_append_err (treeListCalls ts)
          (runStack_tree_deep t (.seq :: st) (by simp; omega) (by simp; omega))
      · rw [runStack_append_ok (treeListCalls ts)
          (runStack_tree t (.seq :: st) (by simp; omega))]
        exact runStack_treeList_deep ts st hlen
          (by simp only [heightTList] at h; omega)

theorem runStack_treePairs_deep (ps : TreePairs) (st : Stack)
    (hlen : st.length + 1 ≤ MAX_DEPTH)
    (h : MAX_DEPTH < st.length + 1 + heightTPairs ps) :
    runStack (.mapAwaitingKey :: st) (treePairsCalls ps) = .error .DepthExceeded := by
  cases ps with
  | nil => exact absurd h (by simp [heightTPairs]; omega)
  | cons k v rest =>
      simp only [treePairsCalls, runStack]
      show runStack (.mapAwaitingValue :: st)
        (treeCalls k ++ .map_value :: (treeCalls v ++ treePairsCalls rest)) =
        .error .DepthExceeded
      by_cases hk : MAX_DEPTH < st.length + 1 + heightT k
      · exact runStack_append_err (.map_value :: (treeCalls v ++ treePairsCalls rest))
          (runStack_tree_deep k (.mapAwaitingValue :: st) (by simp; omega) (by simp; omega))
      · rw [runStack_append_ok (.map_value :: (treeCalls v ++ treePairsCalls rest))
          (runStack_tree k (.mapAwaitingValue :: st) (by simp; omega))]
        show runStack (.mapAwaitingKey :: st) (treeCalls v ++ treePairsCalls rest) =
          .error .DepthExceeded
        by_cases hv : MAX_DEPTH < st.length + 1 + heightT v
        · exact runStack_append_err (treePairsCalls rest)
            (runStack_tree_deep v (.mapAwaitingKey :: st) (by simp; omega) (by simp; omega))
        · rw [runStack_append_ok (treePairsCalls rest)
            (runStack_tree v (.mapAwaitingKey :: st) (by simp; omega))]
          exact runStack_treePairs_deep rest st hlen
            (by simp only [heightTPairs] at h; omega)
end

/-! ### The owned snapshot builder collects exactly the described
value -/

theorem ownedList_append_nil : (l : OwnedList) → l.append .nil = l
  | .nil => rfl
  | .cons x rest => by simp [OwnedList.append, ownedList_append_nil rest]

theorem ownedList_snoc_append (v : OwnedValue) (l' : OwnedList) :
    (l : OwnedList) → (l.snoc v).append l' = l.append (.cons v l')
  | .nil => rfl
  | .cons x rest => by
      simp [OwnedList.append, OwnedList.snoc, ownedList_snoc_append v l' rest]

theorem ownedPairs_append_nil : (l : OwnedPairs) → l.append .nil = l
  | .nil => rfl
  | .cons a b rest => by simp [OwnedPairs.append, ownedPairs_append_nil rest]

theorem ownedPairs_snoc_append (k v : OwnedValue) (l' : OwnedPairs) :
    (l : OwnedPairs) → (l.snoc k v).append l' = l.append (.cons k v l')
  | .nil => rfl
  | .cons a b rest => by
      simp [OwnedPairs.append, OwnedPairs.snoc, ownedPairs_snoc_append k v l' rest]

mutual
theorem runBuild_tree (t : Tree) (b b' : Builder) (h : b.insert (owned t) = .ok b') :
    runConsumer builderConsumer b (treeCalls t) = .ok b' := by
  cases t with
  | u64 v =>
      simp only [treeCalls, runConsumer, builderConsumer, builderOnCall]
      simp only [owned] at h
      rw [h]
  | i64 v =>
      simp only [treeCalls, runConsumer, builderConsumer, builderOnCall]
      simp only [owned] at h
      rw [h]
  | bool v =>
      simp only [treeCalls, runConsumer, builderConsumer, builderOnCall]
      simp only [owned] at h
      rw [h]
  | char v =>
      simp only [treeCalls, runConsumer, builderConsumer, builderOnCall]
      simp only [owned] at h
      rw [h]
  | str v =>
      simp only [treeCalls, runConsumer, builderConsumer, builderOnCall]
      simp only [owned] at h
      rw [h]
  | unit =>
      simp only [treeCalls, runConsumer, builderConsumer, builderOnCall]
      simp only [owned] at h
      rw [h]
  | seq hint ts =>
      simp only [treeCalls, runConsumer]
      show runConsumer builderConsumer ⟨.seq .nil :: b.parts, b.result⟩
        (treeListCalls ts ++ [.seq_end]) = .ok b'
      rw [runConsumer_append_ok [.seq_end] (runBuild_treeList ts .nil b.parts b.result)]
      simp only [owned] at h
      have hstep : builderConsumer.onCall .seq_end
          ⟨.seq (OwnedList.nil.append (ownedListOf ts)) :: b.parts, b.result⟩ = .ok b' := h
      simp [runConsumer, hstep]
  | map hint ps =>
      simp only [treeCalls, runConsumer]
      show runConsumer builderConsumer ⟨.map .nil none :: b.parts, b.result⟩
        (treePairsCalls ps ++ [.map_end]) = .ok b'
      rw [runConsumer_append_ok [.map_end] (runBuild_treePairs ps .nil b.parts b.result)]
      simp only [owned] at h
      have hstep : builderConsumer.onCall .map_end
          ⟨.map (OwnedPairs.nil.append (ownedPairsOf ps)) none :: b.parts, b.result⟩ =
          .ok b' := h
      simp [runConsumer, hstep]

theorem runBuild_treeList (ts : TreeList) (items : OwnedList) (S : List Part)
    (r : Option OwnedValue) :
    runConsumer builderConsumer ⟨.seq items :: S, r⟩ (treeListCalls ts) =
      .ok ⟨.seq (items.append (ownedListOf ts)) :: S, r⟩ := by
  cases ts with
  | nil => simp [treeListCalls, runConsumer, ownedListOf, ownedList_append_nil]
  | cons t ts =>
      simp only [treeListCalls, runConsumer]
      show runConsumer builderConsumer ⟨.seq items :: S, r⟩
        (treeCalls t ++ treeListCalls ts) =
        .ok ⟨.seq (items.append (ownedListOf (.cons t ts))) :: S, r⟩
      rw [runConsumer_append_ok (treeListCalls ts)
        (runBuild_tree t ⟨.seq items :: S, r⟩ ⟨.seq (items.snoc (owned t)) :: S, r⟩ rfl)]
      rw [runBuild_treeList ts (items.snoc (owned t)) S r]
      rw [ownedList_snoc_append]
      rfl

theorem runBuild_treePairs (ps : TreePairs) (entries : OwnedPairs) (S : List Part)
    (r : Option OwnedValue) :
    runConsumer builderConsumer ⟨.map entries none :: S, r⟩ (treePairsCalls ps) =
      .ok ⟨.map (entries.append (ownedPairsOf ps)) none :: S, r⟩ := by
  cases ps with
  | nil => simp [treePairsCalls, runConsumer, ownedPairsOf, ownedPairs_append_nil]
  | cons k v rest =>
      simp only [treePairsCalls, runConsumer]
      show runConsumer builderConsumer ⟨.map entries none :: S, r⟩
        (treeCalls k ++ .map_value :: (treeCalls v ++ treePairsCalls rest)) =
        .ok ⟨.map (entries.append (ownedPairsOf (.cons k v rest))) none :: S, r⟩
      rw [runConsumer_append_ok (.map_value :: (treeCalls v ++ treePairsCalls rest))
        (runBuild_tree k ⟨.map entries none :: S, r⟩
          ⟨.map entries (some (owned k)) :: S, r⟩ rfl)]
      show runConsumer builderConsumer ⟨.map entries (some (owned k)) :: S, r⟩
        (treeCalls v ++ treePairsCalls rest) =
        .ok ⟨.map (entries.append (ownedPairsOf (.cons k v rest))) none :: S, r⟩
      rw [runConsumer_append_ok (treePairsCalls rest)
        (runBuild_tree v ⟨.map entries (some (owned k)) :: S, r⟩
          ⟨.map (entries.snoc (owned k) (owned v)) none :: S, r⟩ rfl)]
      rw [runBuild_treePairs rest (entries.snoc (owned k) (owned v)) S r]
      rw [ownedPairs_snoc_append]
      rfl
end

/-- Within the depth bound, the snapshot entry point returns exactly the
owned image of the value the producer describes. -/
theorem from_value_tree (t : Tree) (h : heightT t ≤ MAX_DEPTH) :
    OwnedValue.from_value (treeCalls t) = .ok (owned t) := by
  have hs : runStack [] (treeCalls t) = .ok [] := runStack_tree t [] (by simpa using h)
  have hb : runConsumer builderConsumer Builder.empty (treeCalls t) =
      .ok ⟨[], some (owned t)⟩ :=
    runBuild_tree t Builder.empty ⟨[], some (owned t)⟩ rfl
  have hd := runDriver_split (c := builderConsumer) hs hb
  simp only [OwnedValue.from_value, streamTop, streamFrom, hd]
  rfl

/-! ### An owned value streamed again describes itself -/

mutual
theorem owned_toTree : (v : OwnedValue) → owned v.toTree = v
  | .Uint _ => rfl
  | .Sint _ => rfl
  | .Boolean _ => rfl
  | .Character _ => rfl
  | .Str _ => rfl
  | .Unit => rfl
  | .Seq items => by
      simp [OwnedValue.toTree, owned, ownedListOf_toTreeList items]
  | .Map entries => by
      simp [OwnedValue.toTree, owned, ownedPairsOf_toTreePairs entries]

theorem ownedListOf_toTreeList : (l : OwnedList) → ownedListOf (OwnedList.toTreeList l) = l
  | .nil => rfl
  | .cons v rest => by
      simp [OwnedList.toTreeList, ownedListOf, owned_toTree v,
        ownedListOf_toTreeList rest]

theorem ownedPairsOf_toTreePairs :
    (l : OwnedPairs) → ownedPairsOf (OwnedPairs.toTreePairs l) = l
  | .nil => rfl
  | .cons k v rest => by
      simp [OwnedPairs.toTreePairs, ownedPairsOf, owned_toTree k, owned_toTree v,
        ownedPairsOf_toTreePairs rest]
end

mutual
theorem heightT_owned_toTree : (t : Tree) → heightT (OwnedValue.toTree (owned t)) = heightT t
  | .u64 _ => rfl
  | .i64 _ => rfl
  | .bool _ => rfl
  | .char _ => rfl
  | .str _ => rfl
  | .unit => rfl
  | .seq hint ts => by
      simp [owned, OwnedValue.toTree, heightT, heightTList_owned_toTreeList ts]
  | .map hint ps => by
      simp [owned, OwnedValue.toTree, heightT, heightTPairs_owned_toTreePairs ps]

theorem heightTList_owned_toTreeList :
    (ts : TreeList) → heightTList (OwnedList.toTreeList (ownedListOf ts)) = heightTList ts
  | .nil => rfl
  | .cons t ts => by
      simp [ownedListOf, OwnedList.toTreeList, heightTList, heightT_owned_toTree t,
        heightTList_owned_toTreeList ts]

theorem heightTPairs_owned_toTreePairs :
    (ps : TreePairs) →
      heightTPairs (OwnedPairs.toTreePairs (ownedPairsOf ps)) = heightTPairs ps
  | .nil => rfl
  | .cons k v rest => by
      simp [ownedPairsOf, OwnedPairs.toTreePairs, heightTPairs, heightT_owned_toTree k,
        heightT_owned_toTree v, heightTPairs_owned_toTreePairs rest]
end

/-! ### The Stack check and the snapshot builder never look at size
hints -/

theorem check_hintErase {c₁ c₂ : Call} (h : hintErase c₁ = hintErase c₂) :
    ∀ st : Stack, check c₁ st = check c₂ st := by
  cases c₁ <;> cases c₂ <;> simp_all [hintErase, check]

theorem builderOnCall_hintErase {c₁ c₂ : Call} (h : hintErase c₁ = hintErase c₂) :
    ∀ b : Builder, builderOnCall c₁ b = builderOnCall c₂ b := by
  cases c₁ <;> cases c₂ <;> simp_all [hintErase, builderOnCall]

theorem step_builder_hintErase {c₁ c₂ : Call} (h : hintErase c₁ = hintErase c₂)
    (p : Stack × Builder) : step builderConsumer p c₁ = step builderConsumer p c₂ := by
  simp only [step, builderConsumer, check_hintErase h, builderOnCall_hintErase h]

theorem runDriver_builder_hintErase :
    ∀ (cs₁ cs₂ : List Call), cs₁.map hintErase = cs₂.map hintErase →
      ∀ p : Stack × Builder,
        runDriver builderConsumer p cs₁ = runDriver builderConsumer p cs₂ := by
  intro cs₁
  induction cs₁ with
  | nil =>
      intro cs₂ h p
      cases cs₂ with
      | nil => rfl
      | cons c cs => simp at h
  | cons c cs ih =>
      intro cs₂ h p
      cases cs₂ with
      | nil => simp at h
      | cons c₂ cs₂' =>
          simp only [List.map, List.cons.injEq] at h
          simp only [runDriver, step_builder_hintErase h.1 p]
          cases step builderConsumer p c₂ with
          | error e => rfl
          | ok p' => exact ih cs₂' h.2 p'

/-- Two producers issuing the same calls up to size hints produce the
same owned snapshot outcome. -/
theorem from_value_hintErase (cs₁ cs₂ : List Call)
    (h : cs₁.map hintErase = cs₂.map hintErase) :
    OwnedValue.from_value cs₁ = OwnedValue.from_value cs₂ := by
  simp only [OwnedValue.from_value, streamTop, streamFrom,
    runDriver_builder_hintErase cs₁ cs₂ h ([], Builder.empty)]

/-- A successful transition never grows the stack past the depth
bound. -/
theorem check_length (call : Call) (st st' : Stack) (hlen : st.length ≤ MAX_DEPTH)
    (h : check call st = .ok st') : st'.length ≤ MAX_DEPTH := by
  cases call with
  | u64 v => simp only [check, Except.ok.injEq] at h; exact h ▸ hlen
  | i64 v => simp only [check, Except.ok.injEq] at h; exact h ▸ hlen
  | bool b => simp only [check, Except.ok.injEq] at h; exact h ▸ hlen
  | char c => simp only [check, Except.ok.injEq] at h; exact h ▸ hlen
  | str s => simp only [check, Except.ok.injEq] at h; exact h ▸ hlen
  | unit => simp only [check, Except.ok.injEq] at h; exact h ▸ hlen
  | seq_begin hint =>
      simp only [check] at h
      split at h
      · rename_i hlt
        simp only [Except.ok.injEq] at h
        subst h
        simp only [List.length_cons]
        omega
      · simp at h
  | map_begin hint =>
      simp only [check] at h
      split at h
      · rename_i hlt
        simp only [Except.ok.injEq] at h
        subst h
        simp only [List.length_cons]
        omega
      · simp at h
  | seq_elem =>
      cases st with
      | nil => simp [check] at h
      | cons f rest =>
          cases f with
          | seq => simp only [check, Except.ok.injEq] at h; exact h ▸ hlen
          | mapAwaitingKey => simp [check] at h
          | mapAwaitingValue => simp [check] at h
  | seq_end =>
      cases st with
      | nil => simp [check] at h
      | cons f rest =>
          cases f with
          | seq =>
              simp only [check, Except.ok.injEq] at h
              subst h
              simp only [List.length_cons] at hlen
              omega
          | mapAwaitingKey => simp [check] at h
          | mapAwaitingValue => simp [check] at h
  | map_key =>
      cases st with
      | nil => simp [check] at h
      | cons f rest =>
          cases f with
          | seq => simp [check] at h
          | mapAwaitingKey =>
              simp only [check, Except.ok.injEq] at h
              subst h
              simpa using hlen
          | mapAwaitingValue => simp [check] at h
  | map_value =>
      cases st with
      | nil => simp [check] at h
      | cons f rest =>
          cases f with
          | seq => simp [check] at h
          | mapAwaitingKey => simp [check] at h
          | mapAwaitingValue =>
              simp only [check, Except.ok.injEq] at h
              subst h
              simpa using hlen
  | map_end =>
      cases st with
      | nil => simp [check] at h
      | cons f rest =>
          cases f with
          | seq => simp [check] at h
          | mapAwaitingKey =>
              simp only [check, Except.ok.injEq] at h
              subst h
              simp only [List.length_cons] at hlen
              omega
          | mapAwaitingValue => simp [check] at h

/-! ### The claims -/

/-- Claim C1: every call issued during a streaming operation first
passes the protocol driver's Stack transition check; on success the call
is forwarded verbatim to the wrapped consumer; on failure the wrapped
consumer is not invoked for the call (the step's outcome is the check's
error alone, whatever the consumer), no further calls are processed for
the rest of the operation, and the top-level stream entry point returns
that exact first error. -/
theorem claim1_driver_validates_then_forwards :
    (∀ (σ : Type) (c : Consumer σ) (st : Stack) (s : σ) (call : Call) (st' : Stack),
       check call st = .ok st' →
       step c (st, s) call =
         match c.onCall call s with
         | .error e => .error e
         | .ok s' => .ok (st', s')) ∧
    (∀ (σ : Type) (c : Consumer σ) (st : Stack) (s : σ) (call : Call) (e : Err),
       check call st = .error e → step c (st, s) call = .error e) ∧
    (∀ (σ : Type) (c : Consumer σ) (p : Stack × σ) (call : Call) (rest : List Call)
       (e : Err), step c p call = .error e → runDriver c p (call :: rest) = .error e) ∧
    (∀ (σ : Type) (c : Consumer σ) (s : σ) (calls : List Call) (e : Err),
       runDriver c ([], s) calls = .error e → streamTop c s calls = .error e) := by
  refine ⟨?_, ?_, ?_, ?_⟩
  · intro σ c st s call st' h
    simp [step, h]
  · intro σ c st s call e h
    simp [step, h]
  · intro σ c p call rest e h
    simp [runDriver, h]
  · intro σ c s calls e h
    simp [streamTop, streamFrom, h]

/-- Witness for C1 at a concrete input: `seq_end` with no open sequence
fails the check with `InvalidState`; the step reports exactly that error
and so does the top-level entry point. -/
theorem claim1_witness :
    step nullConsumer (([] : Stack), ()) .seq_end = .error .InvalidState ∧
    streamTop nullConsumer () [.seq_end] = .error .InvalidState :=
  ⟨claim1_driver_validates_then_forwards.2.1 Unit nullConsumer [] () .seq_end
      .InvalidState rfl,
   claim1_driver_validates_then_forwards.2.2.2 Unit nullConsumer () [.seq_end]
      .InvalidState rfl⟩

/-- Claim C2: every successful transition keeps the stack within
`MAX_DEPTH`; every producer nesting to exactly `MAX_DEPTH` streams
successfully; every producer nesting to exactly `MAX_DEPTH + 1` fails
with `DepthExceeded`; and the begin call arriving at a full stack fails
with `DepthExceeded` instead of growing the stack. -/
theorem claim2_depth_invariant :
    (∀ (call : Call) (st st' : Stack), st.length ≤ MAX_DEPTH →
       check call st = .ok st' → st'.length ≤ MAX_DEPTH) ∧
    (∀ t : Tree, heightT t = MAX_DEPTH →
       streamTop nullConsumer () (treeCalls t) = .ok ()) ∧
    (∀ t : Tree, heightT t = MAX_DEPTH + 1 →
       streamTop nullConsumer () (treeCalls t) = .error .DepthExceeded) ∧
    (∀ (st : Stack) (hint : Option Nat), st.length = MAX_DEPTH →
       check (.seq_begin hint) st = .error .DepthExceeded ∧
       check (.map_begin hint) st = .error .DepthExceeded) := by
  refine ⟨check_length, ?_, ?_, ?_⟩
  · intro t h
    have hs : runStack [] (treeCalls t) = .ok [] := runStack_tree t [] (by simp; omega)
    have hd := runDriver_null [] (treeCalls t)
    rw [hs] at hd
    simp only [streamTop, streamFrom, hd]
    rfl
  · intro t h
    have hs : runStack [] (treeCalls t) = .error .DepthExceeded :=
      runStack_tree_deep t [] (by simp) (by simp; omega)
    have hd := runDriver_null [] (treeCalls t)
    rw [hs] at hd
    simp only [streamTop, streamFrom, hd]
  · intro st hint h
    constructor <;> simp [check] <;> omega

/-- Witness for C2 at concrete inputs: nesting sequences to exactly
depth 16 streams successfully, and to exactly depth 17 fails with
`DepthExceeded`. -/
theorem claim2_witness :
    streamTop nullConsumer () (treeCalls (nestSeq 16)) = .ok () ∧
    streamTop nullConsumer () (treeCalls (nestSeq 17)) = .error .DepthExceeded :=
  ⟨claim2_depth_invariant.2.1 (nestSeq 16) (by decide),
   claim2_depth_invariant.2.2.1 (nestSeq 17) (by decide)⟩

/-- Claim C3: for every producer describing a value of nesting depth at
most `MAX_DEPTH`, taking the owned snapshot and then streaming that
snapshot through the owned-snapshot builder a second time yields a
structurally identical snapshot — re-snapshotting is idempotent. -/
theorem claim3_snapshot_idempotent (t : Tree) (h : heightT t ≤ MAX_DEPTH) :
    OwnedValue.from_value (treeCalls t) = .ok (owned t) ∧
    OwnedValue.from_value ((owned t).stream) = .ok (owned t) := by
  refine ⟨from_value_tree t h, ?_⟩
  have h2 : heightT (OwnedValue.toTree (owned t)) ≤ MAX_DEPTH := by
    rw [heightT_owned_toTree]; exact h
  have := from_value_tree (OwnedValue.toTree (owned t)) h2
  rwa [owned_toTree] at this

/-- Witness for C3 at a concrete input: the scenario value `{1: {2: 42}}`
snapshots to `Map([(Uint 1, Map([(Uint 2, Uint 42)]))])` and
re-snapshots to itself. -/
theorem claim3_witness :
    OwnedValue.from_value (treeCalls scenarioTree) = .ok (owned scenarioTree) ∧
    OwnedValue.from_value ((owned scenarioTree).stream) = .ok (owned scenarioTree) :=
  claim3_snapshot_idempotent scenarioTree (by decide)

/-- Claim C5: whenever the top of the Stack is a map frame awaiting its
key — in particular immediately after a successful `map_begin` —
`map_value` (and, at the consumer boundary, the identical
`map_value_begin` announcement) fails with `InvalidState`: it never
succeeds and, being a total transition function, never crashes. -/
theorem claim5_map_value_awaiting_key :
    (∀ st : Stack, check .map_value (.mapAwaitingKey :: st) = .error .InvalidState) ∧
    (∀ (st st' : Stack) (hint : Option Nat), check (.map_begin hint) st = .ok st' →
       check .map_value st' = .error .InvalidState) ∧
    (∀ (σ : Type) (c : Consumer σ) (s : σ) (st : Stack),
       step c (Frame.mapAwaitingKey :: st, s) .map_value = .error .InvalidState) := by
  refine ⟨fun st => rfl, ?_, ?_⟩
  · intro st st' hint h
    simp only [check] at h
    split at h
    · simp only [Except.ok.injEq] at h
      subst h
      rfl
    · simp at h
  · intro σ c s st
    rfl

/-- Witness for C5 at a concrete input: `map_begin` on the empty stack
succeeds, and `map_value` right after it fails with `InvalidState`. -/
theorem claim5_witness :
    check .map_value (Frame.mapAwaitingKey :: []) = .error .InvalidState ∧
    check .map_value ([Frame.mapAwaitingKey] : Stack) = .error .InvalidState :=
  ⟨claim5_map_value_awaiting_key.1 [],
   claim5_map_value_awaiting_key.2.1 [] [Frame.mapAwaitingKey] (some 1) rfl⟩

/-- Claim C6: `end()` fails with `UnterminatedStructure` whenever at
least one begun structure is still open, succeeds exactly when the Stack
is empty, and the Stack is empty both when the entry point starts an
operation and after a successful final end. -/
theorem claim6_balanced_termination :
    (∀ st : Stack, st ≠ [] → endCheck st = .error .UnterminatedStructure) ∧
    (endCheck ([] : Stack) = .ok ()) ∧
    (∀ (st : Stack) (u : Unit), endCheck st = .ok u → st = []) ∧
    (∀ (σ : Type) (c : Consumer σ) (s : σ) (calls : List Call),
       streamTop c s calls = streamFrom c (([] : Stack), s) calls) := by
  refine ⟨?_, rfl, ?_, fun σ c s calls => rfl⟩
  · intro st h
    cases st with
    | nil => exact absurd rfl h
    | cons f rest => rfl
  · intro st u h
    cases st with
    | nil => rfl
    | cons f rest => simp [endCheck] at h

/-- Witness for C6 at a concrete input: a dangling open sequence frame
makes `end()` fail with `UnterminatedStructure`. -/
theorem claim6_witness :
    endCheck ([Frame.seq] : Stack) = .error .UnterminatedStructure :=
  claim6_balanced_termination.1 [Frame.seq] (by simp)

/-- Claim C4, counterexample: the scenario producer for `{1: {2: 42}}`
does not deliver the claim's call sequence — the driver forwards eleven
calls including a `map_value` announcement before the nested
`map_begin`, which the claim's sequence omits; the claim's sequence is
not even accepted by the protocol (its final `map_end` arrives while the
outer map still awaits a value, so capturing it fails with
`InvalidState`). -/
theorem claim4_scenario_counterexample :
    streamTop traceConsumer [] scenario_calls = .ok scenario_calls ∧
    scenario_calls ≠ claimed_delivery ∧
    OwnedValue.from_value claimed_delivery = .error .InvalidState :=
  ⟨rfl, by decide, rfl⟩

/-- Claim C4 as amended: the scenario producer delivers, in order,
`map_begin(Some 1)`, `map_key`, `1`, `map_value`, `map_begin(Some 1)`,
`map_key`, `2`, `map_value`, `42`, `map_end`, `map_end` — each key and
value arriving as its announcement followed by its primitive call, with
a value announcement before the nested map — and capturing that stream
as an owned snapshot yields exactly
`Map([(Uint(1), Map([(Uint(2), Uint(42))]))])`. -/
theorem claim4_scenario_delivery :
    scenario_calls =
      [.map_begin (some 1), .map_key, .u64 1, .map_value, .map_begin (some 1),
       .map_key, .u64 2, .map_value, .u64 42, .map_end, .map_end] ∧
    streamTop traceConsumer [] scenario_calls = .ok scenario_calls ∧
    OwnedValue.from_value scenario_calls = .ok scenarioOwned :=
  ⟨rfl, rfl, rfl⟩

/-- Claim C7: streaming the bare integer 42 through the top-level entry
point to a consumer that overrides only the unsigned-integer method
results in exactly one call to that method with argument 42 (the final
state records exactly `[42]`), and the outcome does not depend on the
formatted fallback at all — the operation succeeds even when the
fallback is defined to fail. -/
theorem claim7_primitive_passthrough
    (f : String → List Nat → Except Err (List Nat)) :
    streamTop (isU64Impl f).toConsumer [] (treeCalls (.u64 42)) = .ok [42] := rfl

/-- Witness for C7 at a concrete fallback: even with the fallback
defined to fail outright (as the lib.rs `IsU64` example defines it), the
bare integer 42 is delivered once to the unsigned-integer method and the
operation succeeds. -/
theorem claim7_witness :
    streamTop (isU64Impl (fun _ _ => .error .Unsupported)).toConsumer []
      (treeCalls (.u64 42)) = .ok [42] :=
  claim7_primitive_passthrough (fun _ _ => .error .Unsupported)

/-- Claim C8: with no overrides, every structural method's default is a
no-op success and every primitive method's default fails with
`Unsupported` (it reaches the fallback's default); every primitive
method's default forwards into the formatted fallback with the rendered
token, so a consumer implementing only the fallback handles every
primitive; the default completion hook is also a no-op success. -/
theorem claim8_default_method_chain :
    (∀ (σ : Type) (s : σ) (call : Call), call.isPrimitive = false →
       dispatch ({} : StreamImpl σ) call s = .ok s) ∧
    (∀ (σ : Type) (s : σ) (call : Call), call.isPrimitive = true →
       dispatch ({} : StreamImpl σ) call s = .error .Unsupported) ∧
    (∀ (σ : Type) (s : σ) (f : String → σ → Except Err σ) (call : Call),
       call.isPrimitive = true →
       dispatch ({ fmt := some f } : StreamImpl σ) call s = f (render call) s) ∧
    (∀ (σ : Type) (s : σ),
       (({} : StreamImpl σ).toConsumer).onEnd s = .ok s) := by
  refine ⟨?_, ?_, ?_, fun σ s => rfl⟩
  · intro σ s call h
    cases call <;> simp_all [Call.isPrimitive] <;> rfl
  · intro σ s call h
    cases call <;> simp_all [Call.isPrimitive] <;> rfl
  · intro σ s f call h
    cases call <;> simp_all [Call.isPrimitive] <;> rfl

/-- Witness for C8 at concrete inputs: with no overrides, `seq_begin`
defaults to no-op success while `u64 5` defaults to `Unsupported`; with
only an accepting fallback, `u64 5` lands in the fallback with the
rendered token. -/
theorem claim8_witness :
    dispatch ({} : StreamImpl Nat) (.seq_begin (some 2)) 0 = .ok 0 ∧
    dispatch ({} : StreamImpl Nat) (.u64 5) 0 = .error .Unsupported ∧
    dispatch ({ fmt := some (fun t n => .ok (n + t.length)) } : StreamImpl Nat)
      (.u64 5) 0 = .ok (0 + "5".length) :=
  ⟨claim8_default_method_chain.1 Nat 0 (.seq_begin (some 2)) rfl,
   claim8_default_method_chain.2.1 Nat 0 (.u64 5) rfl,
   claim8_default_method_chain.2.2.1 Nat 0 (fun t n => .ok (n + t.length)) (.u64 5) rfl⟩

/-- Claim C9: on the producer-facing handle the combined convenience
calls expand to exactly the consumer call sequence of their split forms
— `seq_elem(v)` is the element announcement then `v`'s calls,
`map_key(k)` is `map_key_begin()` then `k`'s calls, `map_value(v)` is
`map_value_begin()` then `v`'s calls — and within one map the two styles
may be mixed freely per slot without changing the delivered sequence. -/
theorem claim9_combined_split_equivalence :
    (∀ t : Tree, seq_elem_calls t = [.seq_elem] ++ treeCalls t) ∧
    (∀ t : Tree, map_key_calls t = map_key_begin_calls ++ treeCalls t) ∧
    (∀ t : Tree, map_value_calls t = map_value_begin_calls ++ treeCalls t) ∧
    (∀ (ck cv : Bool) (k v : Tree), entry_calls ck cv k v = entry_calls true true k v) := by
  refine ⟨fun t => rfl, fun t => rfl, fun t => rfl, ?_⟩
  intro ck cv k v
  cases ck <;> cases cv <;> rfl

/-- Witness for C9 at a concrete input: a map entry streamed with a
split key and a combined value delivers the same calls as the fully
combined style. -/
theorem claim9_witness :
    entry_calls false true (.u64 1) (.u64 2) = entry_calls true true (.u64 1) (.u64 2) :=
  claim9_combined_split_equivalence.2.2.2 false true (.u64 1) (.u64 2)

/-- Claim C10: the owned snapshot does not depend on the size hints the
producer passes to `seq_begin` and `map_begin`: any two producers whose
call sequences agree after erasing hints — in particular one passing
`Some(n)` everywhere the other passes `None` — yield identical
`from_value` outcomes. -/
theorem claim10_hint_independence (cs₁ cs₂ : List Call)
    (h : cs₁.map hintErase = cs₂.map hintErase) :
    OwnedValue.from_value cs₁ = OwnedValue.from_value cs₂ :=
  from_value_hintErase cs₁ cs₂ h

/-- Witness for C10 at a concrete input: the scenario calls with
`Some 1` hints and the same calls with `None` hints (as
benches/owned.rs issues them) build the same owned snapshot. -/
theorem claim10_witness :
    OwnedValue.from_value scenario_calls =
      OwnedValue.from_value
        [.map_begin none, .map_key, .u64 1, .map_value, .map_begin none,
         .map_key, .u64 2, .map_value, .u64 42, .map_end, .map_end] :=
  claim10_hint_independence scenario_calls
    [.map_begin none, .map_key, .u64 1, .map_value, .map_begin none,
     .map_key, .u64 2, .map_value, .u64 42, .map_end, .map_end] (by decide)

end Sval
